import Mathlib

/-!
Shallow embedding of the 5.1 audio router core (audio_router.py together with
the web control layer router_web.py).

Samples, gains and latencies are modelled as exact rationals; the biquad
coefficient computation, which uses trigonometric functions, is modelled over
the real numbers.  Python dictionaries become association lists with
insert-overwrite-in-place / append-at-end semantics, matching the insertion
order preservation of Python dicts.  The interleaved stereo buffers of the
delay line are flat lists of samples (a chunk of N stereo frames is a list of
2N interleaved samples), exactly as the code flattens and reshapes them.
-/

namespace Router

/-- Frames per processing block: CHUNK_SIZE = 512 in the source. -/
def CHUNK_SIZE : ℕ := 512

/-- Python dict assignment d[k] = v on an association list: overwrite in place
when the key is present, append at the end otherwise. -/
def dictInsert {β : Type} (m : List (ℕ × β)) (k : ℕ) (v : β) : List (ℕ × β) :=
  if (m.lookup k).isSome then m.map (fun p => if p.1 = k then (k, v) else p)
  else m ++ [(k, v)]

/-- Python dict deletion del d[k] (on maps with unique keys). -/
def dictErase {β : Type} (m : List (ℕ × β)) (k : ℕ) : List (ℕ × β) :=
  m.filter (fun p => p.1 != k)

/-- One output bus of the mixing step of AudioRouter._process_audio: start from
silence and, for each entry (channel, gain) of the gain map, add that input
channel scaled by the gain.  The audio chunk is a function from frame index and
channel index to the sample value. -/
def mixBus (m : List (ℕ × ℚ)) (audio : ℕ → ℕ → ℚ) : ℕ → ℚ :=
  m.foldl (fun acc p => fun fr => acc fr + audio fr p.1 * p.2) (fun _ => 0)

/-- The per-bus gain update of AudioRouter.set_connection_lr: a positive gain
is inserted or overwritten, otherwise the entry is deleted when present. -/
def setGain (m : List (ℕ × ℚ)) (ch : ℕ) (g : ℚ) : List (ℕ × ℚ) :=
  if 0 < g then dictInsert m ch g
  else if (m.lookup ch).isSome then dictErase m ch
  else m

/-- A single second-order IIR section: five coefficients and the two
Direct-Form-II state variables, as in the BiquadFilter class. -/
structure BiquadFilter (α : Type) where
  b0 : α
  b1 : α
  b2 : α
  a1 : α
  a2 : α
  z1 : α
  z2 : α

/-- BiquadFilter.__init__: identity coefficients, zero state. -/
def BiquadFilter.init {α : Type} [Zero α] [One α] : BiquadFilter α :=
  { b0 := 1, b1 := 0, b2 := 0, a1 := 0, a2 := 0, z1 := 0, z2 := 0 }

/-- One iteration of the Direct-Form-II loop body of BiquadFilter.process:
returns the output sample and the filter carrying the updated state. -/
def BiquadFilter.processSample {α : Type} [CommRing α]
    (f : BiquadFilter α) (x : α) : α × BiquadFilter α :=
  let y := f.b0 * x + f.z1
  let z1n := f.b1 * x - f.a1 * y + f.z2
  let z2n := f.b2 * x - f.a2 * y
  (y, { f with z1 := z1n, z2 := z2n })

/-- BiquadFilter.process: run the Direct-Form-II recursion over a list of
samples, returning the output samples and the filter with its final state
stored back (the code writes z1, z2 back to self after the loop). -/
def BiquadFilter.process {α : Type} [CommRing α]
    (f : BiquadFilter α) : List α → List α × BiquadFilter α
  | [] => ([], f)
  | x :: xs =>
    let step := f.processSample x
    let rest := step.2.process xs
    (step.1 :: rest.1, rest.2)

/-- BiquadFilter.set_highpass: RBJ cookbook high-pass coefficients, normalized
by a0.  The state variables z1, z2 are untouched, exactly as in the code. -/
noncomputable def BiquadFilter.set_highpass
    (f : BiquadFilter ℝ) (cutoff_freq sample_rate q : ℝ) : BiquadFilter ℝ :=
  let w0 := 2 * Real.pi * cutoff_freq / sample_rate
  let cos_w0 := Real.cos w0
  let sin_w0 := Real.sin w0
  let alpha := sin_w0 / (2 * q)
  let nb0 := (1 + cos_w0) / 2
  let nb1 := -(1 + cos_w0)
  let nb2 := (1 + cos_w0) / 2
  let na0 := 1 + alpha
  let na1 := -2 * cos_w0
  let na2 := 1 - alpha
  { f with b0 := nb0 / na0, b1 := nb1 / na0, b2 := nb2 / na0,
           a1 := na1 / na0, a2 := na2 / na0 }

/-- BiquadFilter.set_lowpass: RBJ cookbook low-pass coefficients, normalized
by a0.  The state variables z1, z2 are untouched, exactly as in the code. -/
noncomputable def BiquadFilter.set_lowpass
    (f : BiquadFilter ℝ) (cutoff_freq sample_rate q : ℝ) : BiquadFilter ℝ :=
  let w0 := 2 * Real.pi * cutoff_freq / sample_rate
  let cos_w0 := Real.cos w0
  let sin_w0 := Real.sin w0
  let alpha := sin_w0 / (2 * q)
  let nb0 := (1 - cos_w0) / 2
  let nb1 := 1 - cos_w0
  let nb2 := (1 - cos_w0) / 2
  let na0 := 1 + alpha
  let na1 := -2 * cos_w0
  let na2 := 1 - alpha
  { f with b0 := nb0 / na0, b1 := nb1 / na0, b2 := nb2 / na0,
           a1 := na1 / na0, a2 := na2 / na0 }

/-- BiquadFilter.reset: zero the internal state, keep the coefficients. -/
def BiquadFilter.reset {α : Type} [Zero α] (f : BiquadFilter α) : BiquadFilter α :=
  { f with z1 := 0, z2 := 0 }

/-- One entry of AudioRouter.filters: the raw cutoff settings, four biquad
stages (high-pass and low-pass for each of the two buses) and the enable
flag. -/
structure FilterConfig where
  low_cutoff : ℝ
  high_cutoff : ℝ
  highpass_L : BiquadFilter ℝ
  lowpass_L : BiquadFilter ℝ
  highpass_R : BiquadFilter ℝ
  lowpass_R : BiquadFilter ℝ
  enabled : Bool

/-- The filter entry installed by AudioRouter.add_output. -/
noncomputable def defaultFilterConfig : FilterConfig :=
  { low_cutoff := 20, high_cutoff := 25000,
    highpass_L := BiquadFilter.init, lowpass_L := BiquadFilter.init,
    highpass_R := BiquadFilter.init, lowpass_R := BiquadFilter.init,
    enabled := false }

/-- The clamp applied to the low cutoff in AudioRouter.set_filter:
max(20, min(low, nyquist - 100)) with nyquist = sample_rate / 2. -/
noncomputable def clamp_low (sample_rate low : ℝ) : ℝ :=
  max 20 (min low (sample_rate / 2 - 100))

/-- The clamp applied to the high cutoff in AudioRouter.set_filter:
max(low_clamped + 100, min(high, nyquist - 10)). -/
noncomputable def clamp_high (sample_rate lowC high : ℝ) : ℝ :=
  max (lowC + 100) (min high (sample_rate / 2 - 10))

/-- AudioRouter.set_filter restricted to the state it touches: the filters
dictionary and the sample rate.  Stores the raw cutoffs, configures the four
stages from the clamped cutoffs with the default q = 0.707, resets their
state, and enables filtering.  Unknown device ids leave the map unchanged. -/
noncomputable def set_filter (sample_rate : ℝ) (fs : List (ℕ × FilterConfig))
    (dev : ℕ) (low high : ℝ) : List (ℕ × FilterConfig) :=
  match fs.lookup dev with
  | none => fs
  | some cfg =>
    let lowC := clamp_low sample_rate low
    let highC := clamp_high sample_rate lowC high
    let cfg2 : FilterConfig :=
      { low_cutoff := low, high_cutoff := high,
        highpass_L := (cfg.highpass_L.set_highpass lowC sample_rate (707 / 1000)).reset,
        lowpass_L := (cfg.lowpass_L.set_lowpass highC sample_rate (707 / 1000)).reset,
        highpass_R := (cfg.highpass_R.set_highpass lowC sample_rate (707 / 1000)).reset,
        lowpass_R := (cfg.lowpass_R.set_lowpass highC sample_rate (707 / 1000)).reset,
        enabled := true }
    dictInsert fs dev cfg2

/-- Ceiling division on naturals. -/
def ceilDiv (a b : ℕ) : ℕ := (a + b - 1) / b

/-- A chunk of n zero samples. -/
def silence (n : ℕ) : List ℚ := List.replicate n 0

/-- Python collections.deque(maxlen := cap) extend: append the new samples at
the tail and drop samples from the head once the capacity is exceeded. -/
def dequeExtend (cap : ℕ) (buf xs : List ℚ) : List ℚ :=
  let b := buf ++ xs
  b.drop (b.length - cap)

/-- The latency-compensation step of AudioRouter._process_audio for one
destination and one chunk, on flat interleaved stereo buffers.  With positive
latency the fresh 2N samples join the buffer tail; the oldest 2N samples are
emitted and removed once the buffer holds at least 2N + latency samples, and
otherwise 2N samples of silence are emitted while the buffer keeps the data.
With latency 0 the chunk passes straight through and the buffer is not
touched.  Returns (emitted chunk, new buffer). -/
def delayStep (cap lat N : ℕ) (buf chunk : List ℚ) : List ℚ × List ℚ :=
  if 0 < lat then
    let b := dequeExtend cap buf chunk
    if 2 * N + lat ≤ b.length then
      (b.take (2 * N), b.drop (2 * N))
    else
      (silence (2 * N), b)
  else (chunk, buf)

/-- Feed a sequence of chunks through the delay step, collecting the emitted
chunks and the final buffer. -/
def delayRun (cap lat N : ℕ) (buf : List ℚ) : List (List ℚ) → List (List ℚ) × List ℚ
  | [] => ([], buf)
  | c :: cs =>
    let step := delayStep cap lat N buf c
    let rest := delayRun cap lat N step.2 cs
    (step.1 :: rest.1, rest.2)

/-- One delay ring buffer of AudioRouter.latency_buffers: the stored samples
and the deque capacity it was created with. -/
structure DelayBuffer where
  data : List ℚ
  maxlen : ℕ
deriving DecidableEq

/-- The two per-bus gain maps of one AudioRouter.connections entry. -/
structure BusGains where
  L : List (ℕ × ℚ)
  R : List (ℕ × ℚ)
deriving DecidableEq

/-- The mutable routing state of the AudioRouter instance (the fields the
configuration operations read and write; streams and websocket bookkeeping
are I/O and stay outside the model). -/
structure RouterState where
  running : Bool
  output_devices : List (ℕ × String)
  connections : List (ℕ × BusGains)
  latency_offsets : List (ℕ × ℤ)
  latency_buffers : List (ℕ × DelayBuffer)
  output_levels : List (ℕ × (ℚ × ℚ))
  filters : List (ℕ × FilterConfig)
  sample_rate : ℕ
  latency_buffer_len : ℕ

/-- Python int() applied to a rational: truncation toward zero. -/
def pyInt (q : ℚ) : ℤ := if 0 ≤ q then ⌊q⌋ else ⌈q⌉

/-- AudioRouter.add_output: a no-op when the device id is already registered,
otherwise it installs fresh entries in every per-destination table.  The
device name stands in for the PyAudio device info; stream opening is I/O and
stays outside the model. -/
noncomputable def add_output (st : RouterState) (dev : ℕ) (name : String) : RouterState :=
  if (st.output_devices.lookup dev).isSome then st
  else
    { st with
      output_devices := dictInsert st.output_devices dev name,
      connections := dictInsert st.connections dev { L := [], R := [] },
      latency_offsets := dictInsert st.latency_offsets dev 0,
      latency_buffer_len := st.sample_rate / 2,
      latency_buffers := dictInsert st.latency_buffers dev { data := [], maxlen := st.sample_rate * 2 },
      output_levels := dictInsert st.output_levels dev (0, 0),
      filters := dictInsert st.filters dev defaultFilterConfig }

/-- AudioRouter.set_latency: for a known device, store
int((ms / 1000) * sample_rate) samples; unknown devices are ignored. -/
def set_latency (st : RouterState) (dev : ℕ) (ms : ℚ) : RouterState :=
  if (st.latency_offsets.lookup dev).isSome then
    { st with latency_offsets :=
        dictInsert st.latency_offsets dev (pyInt (ms / 1000 * (st.sample_rate : ℚ))) }
  else st

/-- AudioRouter.set_connection_lr: update one bus gain map of a known device;
unknown devices and bus identifiers other than L and R leave the state
untouched. -/
def set_connection_lr (st : RouterState) (dev ch : ℕ) (side : String) (g : ℚ) : RouterState :=
  match st.connections.lookup dev with
  | none => st
  | some bg =>
    if side = "L" ∨ side = "R" then
      let bg2 := if side = "L" then { bg with L := setGain bg.L ch g }
                 else { bg with R := setGain bg.R ch g }
      { st with connections := dictInsert st.connections dev bg2 }
    else st

/-- The /api/connection/set_lr endpoint of router_web.py: forwards to
set_connection_lr and unconditionally answers with status "set". -/
def api_set_connection_lr (st : RouterState) (dev ch : ℕ) (side : String) (g : ℚ) :
    RouterState × String :=
  (set_connection_lr st dev ch side g, "set")

/-- The buffer re-initialization loop of AudioRouter.start: adopt the input
device's sample rate, then give every registered output device a fresh deque
with capacity newRate * 2 (stream opening is I/O and stays outside the
model). -/
def start_reinit_buffers (st : RouterState) (newRate : ℕ) : RouterState :=
  { st with
    sample_rate := newRate,
    latency_buffers :=
      (st.output_devices.map Prod.fst).foldl
        (fun bufs d => dictInsert bufs d { data := [], maxlen := newRate * 2 })
        st.latency_buffers }

/-- A concrete router state with one registered destination (device 0) at the
default 48000 Hz sample rate. -/
def oneDevState : RouterState :=
  { running := false,
    output_devices := [(0, "dev0")],
    connections := [(0, { L := [], R := [] })],
    latency_offsets := [(0, 0)],
    latency_buffers := [(0, { data := [], maxlen := 96000 })],
    output_levels := [(0, (0, 0))],
    filters := [],
    sample_rate := 48000,
    latency_buffer_len := 0 }

/-- A concrete filter configuration whose left high-pass stage carries
non-zero residual state, for exercising set_filter on a dirty filter. -/
noncomputable def dirtyFilterConfig : FilterConfig :=
  { low_cutoff := 20, high_cutoff := 25000,
    highpass_L := { BiquadFilter.init with z1 := 5, z2 := 7 },
    lowpass_L := BiquadFilter.init,
    highpass_R := BiquadFilter.init,
    lowpass_R := BiquadFilter.init,
    enabled := true }

/-- A concrete router state with no destinations at all. -/
def emptyState : RouterState :=
  { running := false,
    output_devices := [],
    connections := [],
    latency_offsets := [],
    latency_buffers := [],
    output_levels := [],
    filters := [],
    sample_rate := 48000,
    latency_buffer_len := 0 }

/-! ### Association list lemmas -/

theorem lookup_map_replace {β : Type} (m : List (ℕ × β)) (k : ℕ) (v : β) :
    (m.map (fun p => if p.1 = k then (k, v) else p)).lookup k
      = (m.lookup k).map (fun _ => v) := by
  induction m with
  | nil => simp
  | cons p t ih =>
    obtain ⟨a, b⟩ := p
    simp only [List.map_cons]
    by_cases hak : a = k
    · subst hak
      have hc : (a, b).1 = a := rfl
      rw [if_pos hc]
      simp [List.lookup_cons]
    · have hc : ¬ (a, b).1 = k := hak
      rw [if_neg hc]
      have hk : (k == a) = false := beq_eq_false_iff_ne.mpr (Ne.symm hak)
      simp [List.lookup_cons, hk, ih]

theorem lookup_append_right_none {β : Type} (m : List (ℕ × β)) (k : ℕ) (v : β)
    (h : m.lookup k = none) : (m ++ [(k, v)]).lookup k = some v := by
  induction m with
  | nil => simp [List.lookup_cons]
  | cons p t ih =>
    obtain ⟨a, b⟩ := p
    by_cases hak : k = a
    · subst hak
      simp [List.lookup_cons] at h
    · have hk : (k == a) = false := beq_eq_false_iff_ne.mpr hak
      simp only [List.lookup_cons, hk, List.cons_append] at h ⊢
      exact ih h

theorem lookup_dictInsert_self {β : Type} (m : List (ℕ × β)) (k : ℕ) (v : β) :
    (dictInsert m k v).lookup k = some v := by
  unfold dictInsert
  split
  · rename_i h
    rw [lookup_map_replace]
    obtain ⟨w, hw⟩ := Option.isSome_iff_exists.mp h
    simp [hw]
  · rename_i h
    exact lookup_append_right_none m k v (Option.not_isSome_iff_eq_none.mp h)

theorem lookup_map_replace_ne {β : Type} (m : List (ℕ × β)) (k : ℕ) (v : β)
    (k2 : ℕ) (h : k2 ≠ k) :
    (m.map (fun p => if p.1 = k then (k, v) else p)).lookup k2 = m.lookup k2 := by
  induction m with
  | nil => simp
  | cons p t ih =>
    obtain ⟨a, b⟩ := p
    simp only [List.map_cons]
    by_cases hak : a = k
    · subst hak
      have hc : (a, b).1 = a := rfl
      rw [if_pos hc]
      have hk : (k2 == a) = false := beq_eq_false_iff_ne.mpr h
      simp [List.lookup_cons, hk, ih]
    · have hc : ¬ (a, b).1 = k := hak
      rw [if_neg hc]
      by_cases h2a : k2 = a
      · subst h2a
        simp [List.lookup_cons]
      · have hk : (k2 == a) = false := beq_eq_false_iff_ne.mpr h2a
        simp [List.lookup_cons, hk, ih]

theorem lookup_append_single_ne {β : Type} (m : List (ℕ × β)) (k : ℕ) (v : β)
    (k2 : ℕ) (h : k2 ≠ k) : (m ++ [(k, v)]).lookup k2 = m.lookup k2 := by
  induction m with
  | nil =>
    have hk : (k2 == k) = false := beq_eq_false_iff_ne.mpr h
    simp [List.lookup_cons, hk]
  | cons p t ih =>
    obtain ⟨a, b⟩ := p
    by_cases h2a : k2 = a
    · subst h2a
      simp [List.lookup_cons]
    · have hk : (k2 == a) = false := beq_eq_false_iff_ne.mpr h2a
      simp only [List.cons_append, List.lookup_cons, hk]
      exact ih

theorem lookup_dictInsert_ne {β : Type} (m : List (ℕ × β)) (k : ℕ) (v : β)
    (k2 : ℕ) (h : k2 ≠ k) : (dictInsert m k v).lookup k2 = m.lookup k2 := by
  unfold dictInsert
  split
  · exact lookup_map_replace_ne m k v k2 h
  · exact lookup_append_single_ne m k v k2 h

theorem lookup_dictErase_self {β : Type} (m : List (ℕ × β)) (k : ℕ) :
    (dictErase m k).lookup k = none := by
  unfold dictErase
  induction m with
  | nil => simp
  | cons p t ih =>
    obtain ⟨a, b⟩ := p
    by_cases hak : a = k
    · subst hak
      have hc : ((a, b).1 != a) = false := by simp
      simp [List.filter_cons, hc, ih]
    · have hc : ((a, b).1 != k) = true := by simpa using hak
      have hk : (k == a) = false := beq_eq_false_iff_ne.mpr (Ne.symm hak)
      simp [List.filter_cons, hc, List.lookup_cons, hk, ih]

theorem lookup_eq_none_forall {β : Type} (m : List (ℕ × β)) (k : ℕ)
    (h : m.lookup k = none) : ∀ p ∈ m, p.1 ≠ k := by
  induction m with
  | nil => simp
  | cons p t ih =>
    obtain ⟨a, b⟩ := p
    by_cases hak : k = a
    · subst hak
      simp [List.lookup_cons] at h
    · have hk : (k == a) = false := beq_eq_false_iff_ne.mpr hak
      simp only [List.lookup_cons, hk] at h
      intro q hq
      rcases List.mem_cons.mp hq with rfl | hmem
      · exact fun hc => hak hc.symm
      · exact ih h q hmem

theorem mem_dictInsert {β : Type} (m : List (ℕ × β)) (k : ℕ) (v : β) :
    ∀ p ∈ dictInsert m k v, p = (k, v) ∨ p ∈ m := by
  unfold dictInsert
  split
  · intro p hp
    obtain ⟨q, hq, hqe⟩ := List.mem_map.mp hp
    by_cases hqk : q.1 = k
    · left
      simp [hqk] at hqe
      exact hqe.symm
    · right
      simp [hqk] at hqe
      exact hqe ▸ hq
  · intro p hp
    rcases List.mem_append.mp hp with hmem | hmem
    · exact Or.inr hmem
    · exact Or.inl (List.mem_singleton.mp hmem)

theorem mem_dictErase {β : Type} (m : List (ℕ × β)) (k : ℕ) :
    ∀ p ∈ dictErase m k, p ∈ m ∧ p.1 ≠ k := by
  intro p hp
  unfold dictErase at hp
  have := List.mem_filter.mp hp
  exact ⟨this.1, by simpa using this.2⟩

/-! ### Mixing lemmas -/

theorem mixBus_foldl (m : List (ℕ × ℚ)) (audio : ℕ → ℕ → ℚ) (g : ℕ → ℚ) (fr : ℕ) :
    (m.foldl (fun acc p => fun f => acc f + audio f p.1 * p.2) g) fr
      = g fr + (m.map (fun p => audio fr p.1 * p.2)).sum := by
  induction m generalizing g with
  | nil => simp
  | cons p t ih =>
    simp only [List.foldl_cons, List.map_cons, List.sum_cons]
    rw [ih]
    ring

theorem mixBus_eq (m : List (ℕ × ℚ)) (audio : ℕ → ℕ → ℚ) (fr : ℕ) :
    mixBus m audio fr = (m.map (fun p => audio fr p.1 * p.2)).sum := by
  simpa [mixBus] using mixBus_foldl m audio (fun _ => 0) fr

theorem mixBus_insensitive (m : List (ℕ × ℚ)) (ch : ℕ)
    (hm : ∀ p ∈ m, p.1 ≠ ch) (audio audio2 : ℕ → ℕ → ℚ)
    (hagree : ∀ j c, c ≠ ch → audio j c = audio2 j c) (fr : ℕ) :
    mixBus m audio fr = mixBus m audio2 fr := by
  rw [mixBus_eq, mixBus_eq]
  congr 1
  exact List.map_congr_left (fun p hp => by rw [hagree fr p.1 (hm p hp)])

/-! ### setGain lemmas -/

theorem setGain_pos_preserved (m : List (ℕ × ℚ)) (ch : ℕ) (g : ℚ)
    (hm : ∀ p ∈ m, 0 < p.2) : ∀ p ∈ setGain m ch g, 0 < p.2 := by
  unfold setGain
  split
  · rename_i hg
    intro p hp
    rcases mem_dictInsert m ch g p hp with rfl | hmem
    · exact hg
    · exact hm p hmem
  · split
    · intro p hp
      exact hm p (mem_dictErase m ch p hp).1
    · exact hm

theorem setGain_zero_keys (m : List (ℕ × ℚ)) (ch : ℕ) (g : ℚ) (hg : ¬ 0 < g) :
    ∀ p ∈ setGain m ch g, p.1 ≠ ch := by
  unfold setGain
  rw [if_neg hg]
  split
  · intro p hp
    exact (mem_dictErase m ch p hp).2
  · rename_i h
    exact lookup_eq_none_forall m ch (Option.not_isSome_iff_eq_none.mp h)

/-! ### Claim theorems: mixing and gain maps -/

/-- Claim C1: for every gain map and input chunk, the mixed bus output at each
frame is the sum over the map entries of the input sample at that entry's
channel times the entry's gain, and an unmapped channel contributes nothing;
in particular the gain map 0 at 0.5 and 2 at 1.0 applied to a chunk with
channel 0 constant 0.2 and channel 2 constant 0.3 gives constant 0.4, while an
empty map gives constant 0. -/
theorem C1_mixing (m : List (ℕ × ℚ)) (audio audio2 : ℕ → ℕ → ℚ) (fr : ℕ) :
    mixBus m audio fr = (m.map (fun p => audio fr p.1 * p.2)).sum ∧
    ((∀ j, audio2 j 0 = 1/5) → (∀ j, audio2 j 2 = 3/10) →
      mixBus [(0, (1 : ℚ)/2), (2, 1)] audio2 fr = 2/5 ∧ mixBus [] audio2 fr = 0) := by
  refine ⟨mixBus_eq m audio fr, fun h0 h2 => ⟨?_, ?_⟩⟩
  · rw [mixBus_eq]
    simp [h0 fr, h2 fr]
    norm_num
  · simp [mixBus]

/-- Witness for C1 at a concrete input chunk. -/
theorem C1_mixing_witness :
    mixBus [(0, (1 : ℚ)/2), (2, 1)]
      (fun _ c => if c = 0 then 1/5 else if c = 2 then 3/10 else 0) 0 = 2/5 :=
  ((C1_mixing [] (fun _ _ => 0)
      (fun _ c => if c = 0 then 1/5 else if c = 2 then 3/10 else 0) 0).2
    (fun _ => by norm_num) (fun _ => by norm_num)).1

/-- Claim C5: setting a positive gain inserts or overwrites the map entry,
setting a non-positive gain removes any existing entry; hence any sequence of
set-gain operations keeps every stored gain positive, and after setting a
channel's gain to 0 that channel is absent from the map and contributes
nothing to subsequent mixes (the mix no longer depends on that channel's
samples). -/
theorem C5_set_gain (m : List (ℕ × ℚ)) (ch : ℕ) (g : ℚ) :
    (0 < g → (setGain m ch g).lookup ch = some g) ∧
    (g ≤ 0 → (setGain m ch g).lookup ch = none) ∧
    (∀ ops : List (ℕ × ℚ), (∀ p ∈ m, 0 < p.2) →
      ∀ p ∈ ops.foldl (fun acc o => setGain acc o.1 o.2) m, 0 < p.2) ∧
    (∀ audio audio2 : ℕ → ℕ → ℚ, (∀ j c, c ≠ ch → audio j c = audio2 j c) →
      ∀ fr, mixBus (setGain m ch 0) audio fr = mixBus (setGain m ch 0) audio2 fr) := by
  refine ⟨?_, ?_, ?_, ?_⟩
  · intro hg
    unfold setGain
    rw [if_pos hg]
    exact lookup_dictInsert_self m ch g
  · intro hg
    have hng : ¬ 0 < g := not_lt.mpr hg
    unfold setGain
    rw [if_neg hng]
    split
    · exact lookup_dictErase_self m ch
    · rename_i h
      exact Option.not_isSome_iff_eq_none.mp h
  · intro ops
    induction ops generalizing m with
    | nil => intro hm; exact hm
    | cons o t ih =>
      intro hm
      simpa using ih (setGain m o.1 o.2) (setGain_pos_preserved m o.1 o.2 hm)
  · intro audio audio2 hagree fr
    exact mixBus_insensitive _ ch
      (setGain_zero_keys m ch 0 (by norm_num)) audio audio2 hagree fr

/-- Witness for C5 at concrete maps and gains. -/
theorem C5_set_gain_witness :
    (setGain [(1, (1 : ℚ))] 2 ((1 : ℚ)/2)).lookup 2 = some (1/2) ∧
    (setGain [(1, (1 : ℚ))] 1 0).lookup 1 = none ∧
    (0 : ℚ) < 1/2 ∧
    mixBus (setGain [(1, (1 : ℚ))] 1 0) (fun _ c => (c : ℚ)) 0
      = mixBus (setGain [(1, (1 : ℚ))] 1 0) (fun _ c => if c = 1 then 99 else (c : ℚ)) 0 := by
  refine ⟨(C5_set_gain [(1, (1 : ℚ))] 2 ((1 : ℚ)/2)).1 (by norm_num),
          (C5_set_gain [(1, (1 : ℚ))] 1 0).2.1 le_rfl,
          (C5_set_gain [(1, (1 : ℚ))] 1 0).2.2.1 [(2, (1 : ℚ)/2)]
            (by intro p hp; simp at hp; rw [hp]; norm_num)
            (2, (1 : ℚ)/2) (by simp [setGain, dictInsert, dictErase, List.lookup]),
          (C5_set_gain [(1, (1 : ℚ))] 1 0).2.2.2 _ _
            (fun j c hc => by simp [hc]) 0⟩

/-! ### Biquad filter lemmas -/

theorem process_append {α : Type} [CommRing α] (f : BiquadFilter α) (xs ys : List α) :
    f.process (xs ++ ys) =
      ((f.process xs).1 ++ ((f.process xs).2.process ys).1,
        ((f.process xs).2.process ys).2) := by
  induction xs generalizing f with
  | nil => simp [BiquadFilter.process]
  | cons x t ih =>
    simp only [List.cons_append, BiquadFilter.process, List.append_eq, ih]

/-- Claim C3: BiquadFilter.process runs the Direct-Form-II recursion sample by
sample (y = b0 x + z1, then z1 becomes b1 x - a1 y + z2 and z2 becomes
b2 x - a2 y), emits y for each sample, and stores the final state back into
the filter, so that processing a concatenated stream equals processing the
first part and then continuing from the resulting filter state. -/
theorem C3_biquad_process {α : Type} [CommRing α] (f : BiquadFilter α)
    (x : α) (xs ys : List α) :
    (f.process [] = ([], f)) ∧
    (f.process (x :: xs) =
      ((f.b0 * x + f.z1) ::
          ({ f with z1 := f.b1 * x - f.a1 * (f.b0 * x + f.z1) + f.z2,
                    z2 := f.b2 * x - f.a2 * (f.b0 * x + f.z1) }.process xs).1,
        ({ f with z1 := f.b1 * x - f.a1 * (f.b0 * x + f.z1) + f.z2,
                  z2 := f.b2 * x - f.a2 * (f.b0 * x + f.z1) }.process xs).2)) ∧
    (f.process (xs ++ ys) =
      ((f.process xs).1 ++ ((f.process xs).2.process ys).1,
        ((f.process xs).2.process ys).2)) :=
  ⟨rfl, rfl, process_append f xs ys⟩

/-- Claim C4: set_highpass and set_lowpass store the RBJ cookbook
coefficients: with w0 = 2 pi cutoff / rate and alpha = sin w0 / (2 q), the
high-pass numerator is ((1 + cos w0)/2, -(1 + cos w0), (1 + cos w0)/2), the
low-pass numerator is ((1 - cos w0)/2, 1 - cos w0, (1 - cos w0)/2), both use
a0 = 1 + alpha, a1 = -2 cos w0, a2 = 1 - alpha, and every stored coefficient
is divided by a0. -/
theorem C4_biquad_coefficients (f : BiquadFilter ℝ) (cutoff rate q : ℝ) :
    ((f.set_highpass cutoff rate q).b0
        = ((1 + Real.cos (2 * Real.pi * cutoff / rate)) / 2)
            / (1 + Real.sin (2 * Real.pi * cutoff / rate) / (2 * q)) ∧
      (f.set_highpass cutoff rate q).b1
        = (-(1 + Real.cos (2 * Real.pi * cutoff / rate)))
            / (1 + Real.sin (2 * Real.pi * cutoff / rate) / (2 * q)) ∧
      (f.set_highpass cutoff rate q).b2
        = ((1 + Real.cos (2 * Real.pi * cutoff / rate)) / 2)
            / (1 + Real.sin (2 * Real.pi * cutoff / rate) / (2 * q)) ∧
      (f.set_highpass cutoff rate q).a1
        = (-2 * Real.cos (2 * Real.pi * cutoff / rate))
            / (1 + Real.sin (2 * Real.pi * cutoff / rate) / (2 * q)) ∧
      (f.set_highpass cutoff rate q).a2
        = (1 - Real.sin (2 * Real.pi * cutoff / rate) / (2 * q))
            / (1 + Real.sin (2 * Real.pi * cutoff / rate) / (2 * q))) ∧
    ((f.set_lowpass cutoff rate q).b0
        = ((1 - Real.cos (2 * Real.pi * cutoff / rate)) / 2)
            / (1 + Real.sin (2 * Real.pi * cutoff / rate) / (2 * q)) ∧
      (f.set_lowpass cutoff rate q).b1
        = (1 - Real.cos (2 * Real.pi * cutoff / rate))
            / (1 + Real.sin (2 * Real.pi * cutoff / rate) / (2 * q)) ∧
      (f.set_lowpass cutoff rate q).b2
        = ((1 - Real.cos (2 * Real.pi * cutoff / rate)) / 2)
            / (1 + Real.sin (2 * Real.pi * cutoff / rate) / (2 * q)) ∧
      (f.set_lowpass cutoff rate q).a1
        = (-2 * Real.cos (2 * Real.pi * cutoff / rate))
            / (1 + Real.sin (2 * Real.pi * cutoff / rate) / (2 * q)) ∧
      (f.set_lowpass cutoff rate q).a2
        = (1 - Real.sin (2 * Real.pi * cutoff / rate) / (2 * q))
            / (1 + Real.sin (2 * Real.pi * cutoff / rate) / (2 * q))) :=
  ⟨⟨rfl, rfl, rfl, rfl, rfl⟩, ⟨rfl, rfl, rfl, rfl, rfl⟩⟩

/-! ### Key-membership and fold-insert lemmas -/

theorem lookup_isSome_mem_keys {β : Type} (m : List (ℕ × β)) (k : ℕ)
    (h : (m.lookup k).isSome) : k ∈ m.map Prod.fst := by
  induction m with
  | nil => simp at h
  | cons p t ih =>
    obtain ⟨a, b⟩ := p
    by_cases hak : k = a
    · subst hak
      simp
    · have hk : (k == a) = false := beq_eq_false_iff_ne.mpr hak
      simp only [List.lookup_cons, hk] at h
      simp [ih h]

theorem foldl_insert_lookup_not_mem {β : Type} (v : β) (ks : List ℕ) :
    ∀ (m : List (ℕ × β)) (d : ℕ), d ∉ ks →
      (ks.foldl (fun acc k2 => dictInsert acc k2 v) m).lookup d = m.lookup d := by
  induction ks with
  | nil => intro m d _; rfl
  | cons k t ih =>
    intro m d hd
    have hdk : d ≠ k := fun hc => hd (hc ▸ List.mem_cons_self k t)
    have hdt : d ∉ t := fun hc => hd (List.mem_cons_of_mem k hc)
    simp only [List.foldl_cons]
    rw [ih (dictInsert m k v) d hdt, lookup_dictInsert_ne m k v d hdk]

theorem foldl_insert_lookup_mem {β : Type} (v : β) (ks : List ℕ) :
    ∀ (m : List (ℕ × β)) (d : ℕ), d ∈ ks →
      (ks.foldl (fun acc k2 => dictInsert acc k2 v) m).lookup d = some v := by
  induction ks with
  | nil => intro m d hd; simp at hd
  | cons k t ih =>
    intro m d hd
    by_cases hdt : d ∈ t
    · simp only [List.foldl_cons]
      exact ih (dictInsert m k v) d hdt
    · have hdk : d = k := by
        rcases List.mem_cons.mp hd with h | h
        · exact h
        · exact absurd h hdt
      subst hdk
      simp only [List.foldl_cons]
      rw [foldl_insert_lookup_not_mem v t (dictInsert m d v) d hdt,
        lookup_dictInsert_self]

/-! ### Claim theorems: router configuration operations -/

/-- Claim C10: add_output with an already-registered device id is a complete
no-op: the router state, in particular the gain maps, latency settings, delay
buffers, filter configurations and output levels of every destination, is
unchanged. -/
theorem C10_add_output_idempotent (st : RouterState) (dev : ℕ) (name : String)
    (h : (st.output_devices.lookup dev).isSome) :
    add_output st dev name = st ∧
    (add_output st dev name).connections = st.connections ∧
    (add_output st dev name).latency_offsets = st.latency_offsets ∧
    (add_output st dev name).latency_buffers = st.latency_buffers ∧
    (add_output st dev name).filters = st.filters ∧
    (add_output st dev name).output_levels = st.output_levels := by
  have he : add_output st dev name = st := by
    unfold add_output
    rw [if_pos h]
  exact ⟨he, by rw [he], by rw [he], by rw [he], by rw [he], by rw [he]⟩

/-- Witness for C10: re-adding device 0 of the one-destination state. -/
theorem C10_add_output_idempotent_witness :
    ((oneDevState.output_devices.lookup 0).isSome = true) ∧
    add_output oneDevState 0 "other" = oneDevState :=
  ⟨rfl, (C10_add_output_idempotent oneDevState 0 "other" rfl).1⟩

/-- Counterexample to claim C7 as stated: the code stores
int((ms/1000)*sample_rate), which truncates toward zero, not round.  At
ms = 0.99 and sample rate 48000 the product is 47.52: the stored value is 47
while round gives 48. -/
theorem C7_counterexample :
    (set_latency oneDevState 0 (99/100)).latency_offsets.lookup 0 = some 47 ∧
    round ((99 : ℚ)/100 / 1000 * 48000) = 48 ∧ (47 : ℤ) ≠ 48 := by
  refine ⟨?_, ?_, by decide⟩
  · unfold set_latency
    rw [if_pos (show (List.lookup 0 oneDevState.latency_offsets).isSome = true from rfl),
      lookup_dictInsert_self]
    congr 1
    have hr : ((oneDevState.sample_rate : ℕ) : ℚ) = 48000 := by
      norm_num [oneDevState]
    unfold pyInt
    rw [if_pos (by rw [hr]; norm_num), hr, Int.floor_eq_iff]
    norm_num
  · rw [round_eq, Int.floor_eq_iff]
    norm_num

/-- Claim C7 amended: for a known destination, set_latency stores
int(ms/1000 * sample_rate) — truncation toward zero, which for non-negative
ms is the floor — and leaves the delay buffers (hence their capacity)
untouched. -/
theorem C7_set_latency_amended (st : RouterState) (dev : ℕ) (ms : ℚ)
    (h : (st.latency_offsets.lookup dev).isSome) :
    (set_latency st dev ms).latency_offsets.lookup dev
        = some (pyInt (ms / 1000 * (st.sample_rate : ℚ))) ∧
    (set_latency st dev ms).latency_buffers = st.latency_buffers ∧
    (0 ≤ ms → (set_latency st dev ms).latency_offsets.lookup dev
        = some ⌊ms / 1000 * (st.sample_rate : ℚ)⌋) := by
  unfold set_latency
  rw [if_pos h]
  refine ⟨lookup_dictInsert_self _ _ _, rfl, ?_⟩
  intro hms
  rw [lookup_dictInsert_self]
  have hpos : 0 ≤ ms / 1000 * (st.sample_rate : ℚ) := by positivity
  unfold pyInt
  rw [if_pos hpos]

/-- Witness for the amended C7 at ms = 10 on the one-destination state. -/
theorem C7_set_latency_amended_witness :
    (set_latency oneDevState 0 10).latency_offsets.lookup 0
        = some (pyInt (10 / 1000 * ((48000 : ℕ) : ℚ))) ∧
    (set_latency oneDevState 0 10).latency_buffers = oneDevState.latency_buffers ∧
    (set_latency oneDevState 0 10).latency_offsets.lookup 0
        = some ⌊(10 : ℚ) / 1000 * ((48000 : ℕ) : ℚ)⌋ := by
  have h := C7_set_latency_amended oneDevState 0 10 rfl
  exact ⟨h.1, h.2.1, h.2.2 (by norm_num)⟩

/-- Counterexample to claim C8 as stated: at sample rate 48000 the deque
created by add_output has maxlen 48000 * 2 = 96000 interleaved samples (one
second of stereo audio), not 2 * 48000 * 2 = 192000. -/
theorem C8_counterexample :
    (add_output emptyState 2 "d").latency_buffers.lookup 2
        = some { data := [], maxlen := 96000 } ∧
    (96000 : ℕ) ≠ 2 * 48000 * 2 := by
  constructor
  · rfl
  · decide

/-- Claim C8 amended: every delay ring buffer is created with capacity
sample_rate * 2 interleaved stereo samples (one second of stereo audio, i.e.
2 seconds of samples at the mono sample rate), both when a destination is
added and when start re-initializes the buffers at the new sample rate. -/
theorem C8_capacity_amended (st : RouterState) (dev dev2 : ℕ) (name : String)
    (newRate : ℕ) (hadd : st.output_devices.lookup dev = none)
    (hdev2 : (st.output_devices.lookup dev2).isSome) :
    ((add_output st dev name).latency_buffers.lookup dev
        = some { data := [], maxlen := st.sample_rate * 2 }) ∧
    ((start_reinit_buffers st newRate).latency_buffers.lookup dev2
        = some { data := [], maxlen := newRate * 2 }) := by
  constructor
  · unfold add_output
    rw [if_neg (by simp [hadd])]
    exact lookup_dictInsert_self _ _ _
  · unfold start_reinit_buffers
    exact foldl_insert_lookup_mem _ _ _ _ (lookup_isSome_mem_keys _ _ hdev2)

/-- Witness for the amended C8: adding a fresh device 2 to the empty state and
restarting the one-destination state at 44100 Hz. -/
theorem C8_capacity_amended_witness :
    ((add_output oneDevState 2 "d").latency_buffers.lookup 2
        = some { data := [], maxlen := oneDevState.sample_rate * 2 }) ∧
    ((start_reinit_buffers oneDevState 44100).latency_buffers.lookup 0
        = some { data := [], maxlen := 44100 * 2 }) :=
  ⟨(C8_capacity_amended oneDevState 2 0 "d" 44100 rfl rfl).1,
    (C8_capacity_amended oneDevState 2 0 "d" 44100 rfl rfl).2⟩

/-- Counterexample to claim C9 as stated: a set_gain on a destination that was
never added is not surfaced to the control caller as a rejected operation: the
/api/connection/set_lr endpoint leaves the state untouched and answers with
exactly the same success status "set" that a valid call receives, so no
rejection is observable. -/
theorem C9_counterexample :
    api_set_connection_lr emptyState 5 0 "L" 1 = (emptyState, "set") ∧
    (api_set_connection_lr oneDevState 0 0 "L" 1).2 = "set" ∧
    (api_set_connection_lr emptyState 5 0 "L" 1).2
      = (api_set_connection_lr oneDevState 0 0 "L" 1).2 :=
  ⟨rfl, rfl, rfl⟩

/-- Claim C9 amended: configuration mutations invoked with an unknown
destination id or an invalid bus identifier have no effect on the routing
state, but they are silently ignored rather than surfaced as rejected
operations: the control endpoint returns the same success status as a valid
call. -/
theorem C9_invalid_ops_amended (st : RouterState) (dev ch : ℕ) (side : String)
    (g ms : ℚ) (rate2 low high : ℝ) (fs : List (ℕ × FilterConfig)) :
    (st.connections.lookup dev = none →
      api_set_connection_lr st dev ch side g = (st, "set")) ∧
    (side ≠ "L" → side ≠ "R" →
      api_set_connection_lr st dev ch side g = (st, "set")) ∧
    (st.latency_offsets.lookup dev = none → set_latency st dev ms = st) ∧
    (fs.lookup dev = none → set_filter rate2 fs dev low high = fs) := by
  refine ⟨?_, ?_, ?_, ?_⟩
  · intro h
    unfold api_set_connection_lr set_connection_lr
    rw [h]
  · intro hL hR
    unfold api_set_connection_lr set_connection_lr
    cases hl : st.connections.lookup dev with
    | none => rfl
    | some bg =>
      dsimp only
      rw [if_neg (by simp [hL, hR])]
  · intro h
    unfold set_latency
    rw [if_neg (by simp [h])]
  · intro h
    unfold set_filter
    rw [h]

/-- Witness for the amended C9: unknown device 5 and invalid bus "X" on the
one-destination state. -/
theorem C9_invalid_ops_amended_witness :
    (api_set_connection_lr oneDevState 5 0 "L" 1 = (oneDevState, "set")) ∧
    (api_set_connection_lr oneDevState 0 0 "X" 1 = (oneDevState, "set")) ∧
    (set_latency oneDevState 5 10 = oneDevState) ∧
    (set_filter 48000 [] 0 100 1000 = []) := by
  refine ⟨?_, ?_, ?_, ?_⟩
  · exact (C9_invalid_ops_amended oneDevState 5 0 "L" 1 10 48000 100 1000 []).1 rfl
  · exact (C9_invalid_ops_amended oneDevState 0 0 "X" 1 10 48000 100 1000 []).2.1
      (by decide) (by decide)
  · exact (C9_invalid_ops_amended oneDevState 5 0 "L" 1 10 48000 100 1000 []).2.2.1 rfl
  · exact (C9_invalid_ops_amended oneDevState 0 0 "L" 1 10 48000 100 1000 []).2.2.2 rfl

/-- Claim C6: for an existing destination, set_filter clamps the low cutoff
into [20, max(20, nyquist - 100)] via max(20, min(low, nyquist - 100)) and
the high cutoff into [low_clamped + 100, max(low_clamped + 100, nyquist - 10)]
via max(low_clamped + 100, min(high, nyquist - 10)) before computing
coefficients, reconfigures all four stages (high-pass and low-pass, left and
right bus) from the clamped values, resets the internal state (z1, z2) of all
four stages to zero while reset leaves the coefficients alone, and sets the
enabled flag — for any prior filter state, so in particular a repeated call
with identical cutoffs on non-zero state leaves no residual state. -/
theorem C6_set_filter (rate low high : ℝ) (fs : List (ℕ × FilterConfig))
    (dev : ℕ) (cfg : FilterConfig) (h : fs.lookup dev = some cfg) :
    (20 ≤ clamp_low rate low ∧ clamp_low rate low ≤ max 20 (rate / 2 - 100)) ∧
    (clamp_low rate low + 100 ≤ clamp_high rate (clamp_low rate low) high ∧
      clamp_high rate (clamp_low rate low) high
        ≤ max (clamp_low rate low + 100) (rate / 2 - 10)) ∧
    ((set_filter rate fs dev low high).lookup dev =
      some { low_cutoff := low, high_cutoff := high,
             highpass_L := (cfg.highpass_L.set_highpass
               (clamp_low rate low) rate (707/1000)).reset,
             lowpass_L := (cfg.lowpass_L.set_lowpass
               (clamp_high rate (clamp_low rate low) high) rate (707/1000)).reset,
             highpass_R := (cfg.highpass_R.set_highpass
               (clamp_low rate low) rate (707/1000)).reset,
             lowpass_R := (cfg.lowpass_R.set_lowpass
               (clamp_high rate (clamp_low rate low) high) rate (707/1000)).reset,
             enabled := true }) ∧
    (∀ g : BiquadFilter ℝ, g.reset.z1 = 0 ∧ g.reset.z2 = 0 ∧
      g.reset.b0 = g.b0 ∧ g.reset.b1 = g.b1 ∧ g.reset.b2 = g.b2 ∧
      g.reset.a1 = g.a1 ∧ g.reset.a2 = g.a2) := by
  refine ⟨⟨le_max_left _ _, max_le_max le_rfl (min_le_right _ _)⟩,
          ⟨le_max_left _ _, max_le_max le_rfl (min_le_right _ _)⟩,
          ?_, fun g => ⟨rfl, rfl, rfl, rfl, rfl, rfl, rfl⟩⟩
  unfold set_filter
  rw [h]
  exact lookup_dictInsert_self _ _ _

/-- Witness for C6: set_filter on a one-entry filter table whose stage state
is non-zero, at 48000 Hz with cutoffs 100 and 10000. -/
theorem C6_set_filter_witness :
    (20 ≤ clamp_low 48000 100 ∧
      clamp_low 48000 100 ≤ max 20 ((48000 : ℝ) / 2 - 100)) ∧
    ((set_filter 48000 [(0, dirtyFilterConfig)] 0 100 10000).lookup 0 =
      some { low_cutoff := 100, high_cutoff := 10000,
             highpass_L := (dirtyFilterConfig.highpass_L.set_highpass
               (clamp_low 48000 100) 48000 (707/1000)).reset,
             lowpass_L := (dirtyFilterConfig.lowpass_L.set_lowpass
               (clamp_high 48000 (clamp_low 48000 100) 10000) 48000 (707/1000)).reset,
             highpass_R := (dirtyFilterConfig.highpass_R.set_highpass
               (clamp_low 48000 100) 48000 (707/1000)).reset,
             lowpass_R := (dirtyFilterConfig.lowpass_R.set_lowpass
               (clamp_high 48000 (clamp_low 48000 100) 10000) 48000 (707/1000)).reset,
             enabled := true }) :=
  ⟨(C6_set_filter 48000 100 10000 [(0, dirtyFilterConfig)] 0 dirtyFilterConfig rfl).1,
    (C6_set_filter 48000 100 10000 [(0, dirtyFilterConfig)] 0 dirtyFilterConfig rfl).2.2.1⟩

/-! ### Delay line lemmas -/

theorem lt_ceilDiv_iff (a b j : ℕ) (hb : 0 < b) : j < ceilDiv a b ↔ j * b < a := by
  unfold ceilDiv
  rw [Nat.lt_iff_add_one_le, Nat.le_div_iff_mul_le hb, Nat.succ_mul]
  omega

theorem ceilDiv_mul_lt (a b : ℕ) (hb : 0 < b) : ceilDiv a b * b < a + b := by
  unfold ceilDiv
  have h := Nat.div_mul_le_self (a + b - 1) b
  omega

theorem flatten_length_chunks (cs : List (List ℚ)) (w : ℕ)
    (h : ∀ c ∈ cs, c.length = w) : cs.flatten.length = cs.length * w := by
  induction cs with
  | nil => simp
  | cons c t ih =>
    simp only [List.flatten_cons, List.length_append, List.length_cons]
    rw [h c (List.mem_cons_self c t), ih (fun d hd => h d (List.mem_cons_of_mem c hd))]
    ring

theorem dequeExtend_of_le (cap : ℕ) (buf xs : List ℚ)
    (h : buf.length + xs.length ≤ cap) : dequeExtend cap buf xs = buf ++ xs := by
  unfold dequeExtend
  have hz : (buf ++ xs).length - cap = 0 := by
    simp only [List.length_append]
    omega
  simp only [hz, List.drop_zero]

theorem delayStep_eq (cap lat N : ℕ) (hlat : 0 < lat) (buf chunk : List ℚ)
    (h : buf.length + chunk.length ≤ cap) :
    delayStep cap lat N buf chunk =
      if 2 * N + lat ≤ (buf ++ chunk).length
      then ((buf ++ chunk).take (2 * N), (buf ++ chunk).drop (2 * N))
      else (silence (2 * N), buf ++ chunk) := by
  unfold delayStep
  rw [if_pos hlat]
  simp only [dequeExtend_of_le cap buf chunk h]

theorem delayRun_cons (cap lat N : ℕ) (buf c : List ℚ) (cs : List (List ℚ)) :
    delayRun cap lat N buf (c :: cs) =
      ((delayStep cap lat N buf c).1 ::
          (delayRun cap lat N (delayStep cap lat N buf c).2 cs).1,
        (delayRun cap lat N (delayStep cap lat N buf c).2 cs).2) := rfl

theorem delayRun_get (cap lat N : ℕ) (hN : 0 < N) (hlat : 0 < lat)
    (hcap : lat + 4 * N ≤ cap) :
    ∀ (cs pend : List (List ℚ)),
      (∀ c ∈ pend ++ cs, c.length = 2 * N) →
      pend.length ≤ ceilDiv lat (2 * N) →
      ∀ k, k < cs.length →
        ((delayRun cap lat N pend.flatten cs).1)[k]? =
          if pend.length + k < ceilDiv lat (2 * N) then some (silence (2 * N))
          else (pend ++ cs)[pend.length + k - ceilDiv lat (2 * N)]? := by
  have h2N : 0 < 2 * N := by omega
  intro cs
  induction cs with
  | nil =>
    intro pend _ _ k hk
    simp at hk
  | cons c cs ih =>
    intro pend hlen hinv k hk
    have hclen : c.length = 2 * N := hlen c (by simp)
    have hpendlen : pend.flatten.length = pend.length * (2 * N) :=
      flatten_length_chunks pend (2 * N) (fun d hd => hlen d (by simp [hd]))
    have hDmul : ceilDiv lat (2 * N) * (2 * N) < lat + 2 * N :=
      ceilDiv_mul_lt lat (2 * N) h2N
    have hpmul : pend.length * (2 * N) ≤ ceilDiv lat (2 * N) * (2 * N) :=
      Nat.mul_le_mul_right _ hinv
    have hble : pend.flatten.length + c.length ≤ cap := by omega
    have hstep := delayStep_eq cap lat N hlat pend.flatten c hble
    have hblen : (pend.flatten ++ c).length = pend.length * (2 * N) + 2 * N := by
      simp [List.length_append, hpendlen, hclen]
    by_cases hpD : pend.length < ceilDiv lat (2 * N)
    · -- still filling: the step emits silence and the chunk joins the buffer
      have hpmul2 : pend.length * (2 * N) < lat :=
        (lt_ceilDiv_iff lat (2 * N) pend.length h2N).mp hpD
      have hcond : ¬ (2 * N + lat ≤ (pend.flatten ++ c).length) := by
        rw [hblen]; omega
      rw [if_neg hcond] at hstep
      have hbuf2 : pend.flatten ++ c = (pend ++ [c]).flatten := by
        simp
      rw [hbuf2] at hstep
      cases k with
      | zero =>
        rw [delayRun_cons, hstep]
        simp only [List.getElem?_cons_zero]
        rw [if_pos (by omega)]
      | succ k2 =>
        rw [delayRun_cons, hstep]
        simp only [List.getElem?_cons_succ]
        have hlen2 : ∀ d ∈ (pend ++ [c]) ++ cs, d.length = 2 * N := by
          intro d hd
          apply hlen
          simp only [List.append_assoc, List.singleton_append] at hd
          exact hd
        have hinv2 : (pend ++ [c]).length ≤ ceilDiv lat (2 * N) := by
          simp only [List.length_append, List.length_singleton]
          omega
        have hk2 : k2 < cs.length := by simpa using hk
        rw [ih (pend ++ [c]) hlen2 hinv2 k2 hk2]
        have hplen2 : (pend ++ [c]).length = pend.length + 1 := by simp
        rw [hplen2]
        have hidx : pend.length + 1 + k2 = pend.length + (k2 + 1) := by omega
        rw [hidx]
        have hlist : (pend ++ [c]) ++ cs = pend ++ c :: cs := by simp
        rw [hlist]
    · -- buffer full: the step pops the oldest chunk
      have hpDe : pend.length = ceilDiv lat (2 * N) := le_antisymm hinv (not_lt.mp hpD)
      have hlat2 : lat ≤ pend.length * (2 * N) := by
        have := (lt_ceilDiv_iff lat (2 * N) pend.length h2N).not.mp hpD
        omega
      have hcond : 2 * N + lat ≤ (pend.flatten ++ c).length := by
        rw [hblen]; omega
      rw [if_pos hcond] at hstep
      have hD1 : 0 < ceilDiv lat (2 * N) :=
        (lt_ceilDiv_iff lat (2 * N) 0 h2N).mpr (by omega)
      cases pend with
      | nil =>
        rw [List.length_nil] at hpDe
        omega
      | cons p ps =>
        simp only [List.length_cons] at hpDe
        have hp : p.length = 2 * N := hlen p (by simp)
        have hsplit : (p :: ps).flatten ++ c = p ++ (ps ++ [c]).flatten := by
          simp
        rw [hsplit] at hstep
        have htake : (p ++ (ps ++ [c]).flatten).take (2 * N) = p :=
          List.take_left' hp
        have hdrop : (p ++ (ps ++ [c]).flatten).drop (2 * N) = (ps ++ [c]).flatten :=
          List.drop_left' hp
        rw [htake, hdrop] at hstep
        cases k with
        | zero =>
          rw [delayRun_cons, hstep]
          simp only [List.getElem?_cons_zero]
          rw [if_neg (by simp only [List.length_cons]; omega)]
          have hidx : (p :: ps).length + 0 - ceilDiv lat (2 * N) = 0 := by
            simp only [List.length_cons]
            omega
          rw [hidx]
          simp
        | succ k2 =>
          rw [delayRun_cons, hstep]
          simp only [List.getElem?_cons_succ]
          have hlen2 : ∀ d ∈ (ps ++ [c]) ++ cs, d.length = 2 * N := by
            intro d hd
            apply hlen
            simp only [List.append_assoc, List.singleton_append] at hd
            simp only [List.cons_append]
            exact List.mem_cons_of_mem p hd
          have hinv2 : (ps ++ [c]).length ≤ ceilDiv lat (2 * N) := by
            simp only [List.length_append, List.length_singleton]
            omega
          have hk2 : k2 < cs.length := by simpa using hk
          rw [ih (ps ++ [c]) hlen2 hinv2 k2 hk2]
          have hplen2 : (ps ++ [c]).length = ps.length + 1 := by simp
          rw [hplen2, hpDe]
          rw [if_neg (by omega), if_neg (by simp only [List.length_cons]; omega)]
          have hidx1 : ceilDiv lat (2 * N) + k2 - ceilDiv lat (2 * N) = k2 := by omega
          have hidx2 : (p :: ps).length + (k2 + 1) - ceilDiv lat (2 * N) = k2 + 1 := by
            simp only [List.length_cons]
            omega
          rw [hidx1, hidx2]
          have hlist : (ps ++ [c]) ++ cs = ps ++ c :: cs := by simp
          rw [hlist]
          simp only [List.cons_append, List.getElem?_cons_succ]

/-- Claim C2: with latency 0 the delay step is a pure pass-through with no
buffering; with positive latency L each step appends the 2N fresh interleaved
samples to the buffer tail, then emits and removes the oldest 2N samples when
at least 2N + L samples are buffered and otherwise emits 2N samples of
silence while the buffer keeps growing; consequently, feeding a stream of
2N-sample chunks into an initially empty delay line (within the buffer
capacity) produces ceil((2N+L)/(2N)) - 1 = ceil(L/(2N)) leading all-silence
chunks, after which output chunk k equals input chunk k - ceil(L/(2N))
bit-for-bit. -/
theorem C2_delay_line (cap lat N : ℕ) (buf c0 : List ℚ) (cs : List (List ℚ))
    (hN : 0 < N) (hlat : 0 < lat) (hcap : lat + 4 * N ≤ cap)
    (hlen : ∀ d ∈ cs, d.length = 2 * N) :
    (delayStep cap 0 N buf c0 = (c0, buf)) ∧
    (buf.length + c0.length ≤ cap →
      delayStep cap lat N buf c0 =
        if 2 * N + lat ≤ (buf ++ c0).length
        then ((buf ++ c0).take (2 * N), (buf ++ c0).drop (2 * N))
        else (silence (2 * N), buf ++ c0)) ∧
    (ceilDiv (2 * N + lat) (2 * N) - 1 = ceilDiv lat (2 * N)) ∧
    (∀ k, k < cs.length →
      ((delayRun cap lat N [] cs).1)[k]? =
        if k < ceilDiv lat (2 * N) then some (silence (2 * N))
        else cs[k - ceilDiv lat (2 * N)]?) := by
  refine ⟨by unfold delayStep; rw [if_neg (by omega)],
          fun h => delayStep_eq cap lat N hlat buf c0 h, ?_, ?_⟩
  · have h2N : 0 < 2 * N := by omega
    have key : (2 * N + lat + (2 * N - 1)) / (2 * N)
        = (lat + (2 * N - 1)) / (2 * N) + 1 := by
      have h1 : 2 * N + lat + (2 * N - 1) = lat + (2 * N - 1) + 2 * N := by omega
      rw [h1, Nat.add_div_right _ h2N]
    unfold ceilDiv
    have e1 : 2 * N + lat + 2 * N - 1 = 2 * N + lat + (2 * N - 1) := by omega
    have e2 : lat + 2 * N - 1 = lat + (2 * N - 1) := by omega
    rw [e1, e2, key]
    exact Nat.add_sub_cancel _ _
  · intro k hk
    have h := delayRun_get cap lat N hN hlat hcap cs [] (by simpa using hlen)
      (by simp) k hk
    simpa using h

/-- Witness for C2: chunk size N = 1 (2 interleaved samples per chunk),
latency 1 sample, capacity 10: the first output chunk is silence and output
chunk 1 is input chunk 0. -/
theorem C2_delay_line_witness :
    ((delayRun 10 1 1 [] [[1, 2], [3, 4], [5, 6]]).1)[1]?
        = some (([1, 2] : List ℚ)) ∧
    ((delayRun 10 1 1 [] [[1, 2], [3, 4], [5, 6]]).1)[0]?
        = some (silence 2) := by
  have h1 := (C2_delay_line 10 1 1 [] [] [[1, 2], [3, 4], [5, 6]]
    (by decide) (by decide) (by decide)
    (by intro d hd; fin_cases hd <;> rfl)).2.2.2 1 (by decide)
  have h0 := (C2_delay_line 10 1 1 [] [] [[1, 2], [3, 4], [5, 6]]
    (by decide) (by decide) (by decide)
    (by intro d hd; fin_cases hd <;> rfl)).2.2.2 0 (by decide)
  constructor
  · rw [h1]
    norm_num [ceilDiv]
  · rw [h0]
    norm_num [ceilDiv]

end Router
